import Mathlib

/-!
Shallow embedding of the FastAPI item/file server in src/main.py.

The item registry (items_db) is a Python dict from string ids to plain
dict records; we model Python dicts as association lists that preserve
insertion order, where assignment to an existing key updates the value
in place and assignment to a fresh key appends at the end.  Record
values are modelled by a small JSON-like value type; floating point
prices are modelled by exact rationals (only ordering and equality of
prices matter to the handlers).  The upload directory is modelled as a
flag (does the directory exist) together with a mapping from stored
file names to byte contents, since every handler uses only the fixed
relative "uploads" directory.
-/

set_option autoImplicit false

namespace FastApiDemo

/-- JSON-like values stored in item records and PATCH bodies. -/
inductive Value where
  | vstr : String → Value
  | vnum : Rat → Value
  | vnull : Value
deriving DecidableEq

/-- A Python dict with string keys, as an insertion-ordered association list. -/
abbrev Record := List (String × Value)

/-- The in-memory item store items_db: ids mapped to record dicts. -/
abbrev Db := List (String × Record)

/-- Lookup in a Python dict: first binding of the key. -/
def dictGet {α : Type} : List (String × α) → String → Option α
  | [], _ => none
  | (k', v') :: rest, k => if k' = k then some v' else dictGet rest k

/-- Python dict assignment d[k] = v: update in place if the key exists
(keeping its position), otherwise append the new binding at the end. -/
def dictSet {α : Type} : List (String × α) → String → α → List (String × α)
  | [], k, v => [(k, v)]
  | (k', v') :: rest, k, v =>
      if k' = k then (k', v) :: rest else (k', v') :: dictSet rest k v

/-- Python del d[k]: remove the binding of the key, keeping the order of
the rest.  (Python dicts never hold duplicate keys, so removing the
first binding is removal of the binding.) -/
def dictDel {α : Type} : List (String × α) → String → List (String × α)
  | [], _ => []
  | (k', v') :: rest, k =>
      if k' = k then rest else (k', v') :: dictDel rest k

/-- Python membership test k in d. -/
def hasKey {α : Type} (l : List (String × α)) (k : String) : Bool :=
  (dictGet l k).isSome

/-- The keys of a dict are pairwise distinct (true of every Python dict). -/
def KeysNodup {α : Type} (l : List (String × α)) : Prop :=
  (l.map Prod.fst).Nodup

/-- The pydantic request model Item (src/main.py lines 12-16). -/
structure Item where
  name : String
  description : Option String
  price : Rat
  tax : Option Rat
deriving DecidableEq

/-- An optional string field as a JSON value (None becomes null). -/
def optStr : Option String → Value
  | none => .vnull
  | some s => .vstr s

/-- An optional number field as a JSON value (None becomes null). -/
def optNum : Option Rat → Value
  | none => .vnull
  | some q => .vnum q

/-- item.model_dump(): the fields of the pydantic model as a dict, in
field declaration order. -/
def model_dump (it : Item) : Record :=
  [("name", .vstr it.name), ("description", optStr it.description),
   ("price", .vnum it.price), ("tax", optNum it.tax)]

/-- HTTPException raised by the handlers. -/
inductive HErr where
  | httpException (statusCode : Nat) (detail : String)
deriving DecidableEq

/-- Python runtime errors relevant to these handlers. -/
inductive PyErr where
  | attributeError
  | fileNotFoundError
deriving DecidableEq

/-! ### Item registry handlers -/

/-- GET / (src/main.py lines 24-26). -/
def read_root : Record := [("Hello", .vstr "World")]

/-- GET /items (src/main.py lines 30-32): list(items_db.values()). -/
def read_items (db : Db) : List Record :=
  db.map Prod.snd

/-- GET /items/item_id (src/main.py lines 36-40). -/
def read_item (db : Db) (item_id : String) : Except HErr Record :=
  match dictGet db item_id with
  | none => .error (.httpException 404 "Item not found")
  | some r => .ok r

/-- Python str.lower(). -/
def pyLower (s : String) : String := s.toLower

/-- Does the first character list start the second one? -/
def startsList : List Char → List Char → Bool
  | [], _ => true
  | _ :: _, [] => false
  | a :: as, b :: bs => a = b && startsList as bs

/-- Python substring test: needle in hay for strings, i.e. the first
character list occurs contiguously inside the second. -/
def isSubOf : List Char → List Char → Bool
  | n, [] => decide (n = [])
  | n, c :: cs => startsList n (c :: cs) || isSubOf n cs

/-- Python attribute access item.name on a stored record.  The records
held in items_db are plain dicts (built by dict literals in the create,
update and patch handlers), and a dict exposes its entries through
indexing, not through attributes, so this access raises AttributeError
for every record. -/
def item_name (_item : Record) : Except PyErr String :=
  .error .attributeError

/-- Python attribute access item.price on a stored record; raises
AttributeError exactly as item.name does. -/
def item_price (_item : Record) : Except PyErr Rat :=
  .error .attributeError

/-- One evaluation of the filter predicate of the search comprehension
(src/main.py lines 49-53), with Python left-to-right short-circuit:
(name is None or name.lower() in item.name.lower()) and
(min_price is None or item.price >= min_price). -/
def searchKeep (name : Option String) (min_price : Option Rat) (item : Record) :
    Except PyErr Bool := do
  let lhs : Bool ←
    match name with
    | none => pure true
    | some n => do
        let s ← item_name item
        pure (isSubOf (pyLower n).data (pyLower s).data)
  if lhs then
    match min_price with
    | none => pure true
    | some m => do
        let p ← item_price item
        pure (decide (m ≤ p))
  else
    pure false

/-- A Python list comprehension with a fallible predicate: elements are
visited left to right and the first raised error propagates. -/
def pyFilter {α : Type} (p : α → Except PyErr Bool) : List α → Except PyErr (List α)
  | [] => .ok []
  | a :: rest => do
      let b ← p a
      let r ← pyFilter p rest
      pure (if b then a :: r else r)

/-- GET /items/search handler body (src/main.py lines 44-54). -/
def search_items (db : Db) (name : Option String) (min_price : Option Rat) :
    Except PyErr (List Record) :=
  pyFilter (searchKeep name min_price) (db.map Prod.snd)

/-- POST /items (src/main.py lines 57-62).  The fresh identifier
str(uuid.uuid4()) is passed in as item_id; the handler stores
a dict with id first followed by the model fields, and returns an
equal dict. -/
def create_item (db : Db) (item_id : String) (item : Item) : Record × Db :=
  let stored : Record := ("id", .vstr item_id) :: model_dump item
  (stored, dictSet db item_id stored)

/-- PUT /items/item_id (src/main.py lines 66-74): full replace keeping
only the path id plus the freshly supplied model fields. -/
def update_item (db : Db) (item_id : String) (item : Item) :
    Except HErr Record × Db :=
  if (dictGet db item_id).isSome then
    let updated : Record := ("id", .vstr item_id) :: model_dump item
    (.ok updated, dictSet db item_id updated)
  else
    (.error (.httpException 404 "Item not found"), db)

/-- The PATCH merge loop: for key, value in item.items():
existing_item[key] = value. -/
def mergeInto (r : Record) (body : Record) : Record :=
  body.foldl (fun acc kv => dictSet acc kv.1 kv.2) r

/-- PATCH /items/item_id (src/main.py lines 78-88): untyped merge of an
arbitrary body dict into the stored record, returning the merged record. -/
def patch_item (db : Db) (item_id : String) (body : Record) :
    Except HErr Record × Db :=
  match dictGet db item_id with
  | none => (.error (.httpException 404 "Item not found"), db)
  | some existing =>
      let merged := mergeInto existing body
      (.ok merged, dictSet db item_id merged)

/-- DELETE /items/item_id (src/main.py lines 92-98). -/
def delete_item (db : Db) (item_id : String) : Except HErr Record × Db :=
  if (dictGet db item_id).isSome then
    (.ok [("message", .vstr "Item deleted successfully")], dictDel db item_id)
  else
    (.error (.httpException 404 "Item not found"), db)

/-! ### File store -/

/-- The filesystem as the handlers see it: whether the fixed relative
"uploads" directory exists, and the files inside it (stored name
mapped to byte content).  Every file handler uses only this directory. -/
structure Fs where
  uploadsDirExists : Bool
  uploadsFiles : List (String × List Nat)
deriving DecidableEq

/-- The filesystem before anything is uploaded: no uploads directory. -/
def fsInit : Fs := { uploadsDirExists := false, uploadsFiles := [] }

/-- Python str.split(sep) on character lists: "".split gives one empty
group, and each separator closes the current group. -/
def splitChars (sep : Char) : List Char → List (List Char)
  | [] => [[]]
  | c :: cs =>
      if c = sep then [] :: splitChars sep cs
      else
        match splitChars sep cs with
        | [] => [[c]]
        | g :: gs => (c :: g) :: gs

/-- Python negative indexing l[-1]: the last element of the list (the
default is never used, since str.split always returns a nonempty list). -/
def pyLast {α : Type} (d : α) : List α → α
  | [] => d
  | [x] => x
  | _ :: x :: xs => pyLast d (x :: xs)

/-- Python str.split(sep) on strings. -/
def pySplit (sep : Char) (s : String) : List String :=
  (splitChars sep s.data).map (fun l => String.mk l)

/-- The extension computation of the upload handlers (src/main.py lines
108 and 156): file.filename.split(".")[-1] if "." in file.filename
else "". -/
def file_ext (filename : String) : String :=
  if '.' ∈ filename.data then pyLast "" (pySplit '.' filename) else ""

/-- The characters strictly before the last occurrence of sep, or none
when sep does not occur.  Used to express the base name of a stored
file name. -/
def beforeLast (sep : Char) : List Char → Option (List Char)
  | [] => none
  | c :: cs =>
      match beforeLast sep cs with
      | some r => some (c :: r)
      | none => if c = sep then some [] else none

/-- The base name of a file name: everything before the last dot, or the
whole name when it has no dot. -/
def baseNameOf (s : String) : String :=
  match beforeLast '.' s.data with
  | some r => String.mk r
  | none => s

/-- The response dict of POST /upload. -/
structure UploadOut where
  filename : String
  original_filename : String
  message : String
deriving DecidableEq

/-- POST /upload (src/main.py lines 102-120).  The random token
str(uuid.uuid4()) is passed in as token; os.makedirs("uploads",
exist_ok=True) makes the directory exist, and the whole content is
written under token ++ "." ++ extension. -/
def upload_file (fs : Fs) (token : String) (origName : String)
    (content : List Nat) : UploadOut × Fs :=
  let unique := token ++ "." ++ file_ext origName
  let fs' : Fs := { uploadsDirExists := true,
                    uploadsFiles := dictSet fs.uploadsFiles unique content }
  ({ filename := unique, original_filename := origName,
     message := "File uploaded successfully" }, fs')

/-- The FileResponse produced by GET /download: raw bytes, media type
and the suggested file name. -/
structure FileOut where
  content : List Nat
  media_type : String
  filename : String
deriving DecidableEq

/-- GET /download/filename (src/main.py lines 124-135): 404 when no
file exists at uploads/filename, otherwise the file contents as an
application/octet-stream response suggesting filename. -/
def download_file (fs : Fs) (filename : String) : Except HErr FileOut :=
  match dictGet fs.uploadsFiles filename with
  | none => .error (.httpException 404 "File not found")
  | some content =>
      .ok { content := content, media_type := "application/octet-stream",
            filename := filename }

/-- os.listdir("uploads"): raises FileNotFoundError when the directory
does not exist, otherwise lists the names inside it. -/
def os_listdir (fs : Fs) : Except PyErr (List String) :=
  if fs.uploadsDirExists then .ok (fs.uploadsFiles.map Prod.fst)
  else .error .fileNotFoundError

/-- The response dict of GET /files. -/
structure FilesOut where
  files : List String
deriving DecidableEq

/-- GET /files (src/main.py lines 139-145): try os.listdir("uploads"),
catching only FileNotFoundError to answer with an empty list. -/
def list_files (fs : Fs) : Except PyErr FilesOut :=
  match os_listdir fs with
  | .ok names => .ok { files := names }
  | .error .fileNotFoundError => .ok { files := [] }
  | .error e => .error e

/-- One uploaded multipart file together with the random token
str(uuid.uuid4()) generated for it inside the loop. -/
structure UFile where
  token : String
  origName : String
  content : List Nat
deriving DecidableEq

/-- One entry of the uploaded_files response list. -/
structure UploadEntry where
  filename : String
  original_filename : String
deriving DecidableEq

/-- The response dict of POST /upload-multiple. -/
structure MultiOut where
  uploaded_files : List UploadEntry
deriving DecidableEq

/-- The body of the for loop of POST /upload-multiple (src/main.py
lines 154-167): write each file under its fresh name and append one
response entry, in input order. -/
def uploadLoop (fs : Fs) (acc : List UploadEntry) :
    List UFile → List UploadEntry × Fs
  | [] => (acc, fs)
  | u :: rest =>
      let unique := u.token ++ "." ++ file_ext u.origName
      let fs' : Fs := { fs with uploadsFiles := dictSet fs.uploadsFiles unique u.content }
      uploadLoop fs' (acc ++ [{ filename := unique, original_filename := u.origName }]) rest

/-- POST /upload-multiple (src/main.py lines 149-168). -/
def upload_multiple_files (fs : Fs) (ufs : List UFile) : MultiOut × Fs :=
  let fs1 : Fs := { fs with uploadsDirExists := true }
  let r := uploadLoop fs1 [] ufs
  ({ uploaded_files := r.1 }, r.2)

/-! ### The GET route table

Starlette (and hence FastAPI) tries the registered routes in
declaration order and the first full match handles the request, so a
literal path that is also matched by an earlier path parameter route
never reaches its own handler. -/

/-- One segment of a route pattern: a literal or a path parameter. -/
inductive Pat where
  | lit (s : String)
  | capture
deriving DecidableEq

/-- The GET handlers of the application. -/
inductive GetHandler where
  | hRoot
  | hReadItems
  | hReadItem
  | hSearchItems
  | hDownload
  | hListFiles
deriving DecidableEq

/-- The GET routes in declaration order (src/main.py lines 24, 30, 36,
44, 124, 139), each with its handler. -/
def getRoutes : List (List Pat × GetHandler) :=
  [([], .hRoot),
   ([.lit "items"], .hReadItems),
   ([.lit "items", .capture], .hReadItem),
   ([.lit "items", .lit "search"], .hSearchItems),
   ([.lit "download", .capture], .hDownload),
   ([.lit "files"], .hListFiles)]

/-- Match one route pattern against the path segments, returning the
captured path parameters. -/
def matchPat : List Pat → List String → Option (List String)
  | [], [] => some []
  | [], _ :: _ => none
  | _ :: _, [] => none
  | .lit s :: ps, seg :: segs => if s = seg then matchPat ps segs else none
  | .capture :: ps, seg :: segs => (matchPat ps segs).map (seg :: ·)

/-- First matching route wins, as in Starlette. -/
def findRoute : List (List Pat × GetHandler) → List String →
    Option (GetHandler × List String)
  | [], _ => none
  | (p, h) :: rest, segs =>
      match matchPat p segs with
      | some caps => some (h, caps)
      | none => findRoute rest segs

/-- Route a GET request path through the declared routes. -/
def routeGet (segs : List String) : Option (GetHandler × List String) :=
  findRoute getRoutes segs

/-- A rendered HTTP response of the GET handlers. -/
inductive Resp where
  | jsonObj (r : Record)
  | jsonList (rs : List Record)
  | errResp (statusCode : Nat) (detail : String)
  | pyErrResp (e : PyErr)
  | fileResp (f : FileOut)
  | filesResp (names : List String)
deriving DecidableEq

/-- Full handling of a GET request: route it in declaration order and
run the matched handler.  Query parameters are ignored by every handler
except the search one. -/
def handle_get (db : Db) (fs : Fs) (segs : List String)
    (qname : Option String) (qmin : Option Rat) : Resp :=
  match routeGet segs with
  | none => .errResp 404 "Not Found"
  | some (.hRoot, _) => .jsonObj read_root
  | some (.hReadItems, _) => .jsonList (read_items db)
  | some (.hReadItem, caps) =>
      match caps with
      | [iid] =>
          match read_item db iid with
          | .ok r => .jsonObj r
          | .error (.httpException c d) => .errResp c d
      | _ => .errResp 404 "Not Found"
  | some (.hSearchItems, _) =>
      match search_items db qname qmin with
      | .ok rs => .jsonList rs
      | .error e => .pyErrResp e
  | some (.hDownload, caps) =>
      match caps with
      | [fn] =>
          match download_file fs fn with
          | .ok f => .fileResp f
          | .error (.httpException c d) => .errResp c d
      | _ => .errResp 404 "Not Found"
  | some (.hListFiles, _) =>
      match list_files fs with
      | .ok out => .filesResp out.files
      | .error e => .pyErrResp e

/-! ### Reachable registry states and the store invariant -/

/-- The documented store invariant: every stored item carries a
non-empty id field equal to its mapping key. -/
def DbInv (db : Db) : Prop :=
  ∀ p ∈ db, dictGet p.2 "id" = some (.vstr p.1) ∧ p.1 ≠ ""

instance (db : Db) : Decidable (DbInv db) := by
  unfold DbInv
  infer_instance

/-- Registry states reachable through the HTTP surface, starting from
the empty store.  List, Get and Search never write, so they add no
transitions.  The identifiers handed to create come from
str(uuid.uuid4()), which is always a 36 character string; PATCH bodies
are arbitrary dicts. -/
inductive Reach : Db → Prop where
  | init : Reach []
  | create {db : Db} (item_id : String) (item : Item) :
      item_id.length = 36 → Reach db → Reach (create_item db item_id item).2
  | replace {db : Db} (item_id : String) (item : Item) :
      Reach db → Reach (update_item db item_id item).2
  | patch {db : Db} (item_id : String) (body : Record) :
      Reach db → Reach (patch_item db item_id body).2
  | del {db : Db} (item_id : String) :
      Reach db → Reach (delete_item db item_id).2

/-- Registry states reachable when every PATCH body omits the id key
(the restriction under which the store invariant actually holds). -/
inductive ReachSafe : Db → Prop where
  | init : ReachSafe []
  | create {db : Db} (item_id : String) (item : Item) :
      item_id.length = 36 → ReachSafe db → ReachSafe (create_item db item_id item).2
  | replace {db : Db} (item_id : String) (item : Item) :
      ReachSafe db → ReachSafe (update_item db item_id item).2
  | patch {db : Db} (item_id : String) (body : Record) :
      hasKey body "id" = false → ReachSafe db → ReachSafe (patch_item db item_id body).2
  | del {db : Db} (item_id : String) :
      ReachSafe db → ReachSafe (delete_item db item_id).2

instance {α : Type} (l : List (String × α)) : Decidable (KeysNodup l) := by
  unfold KeysNodup
  infer_instance

/-! ### Concrete values used in witnesses and counterexamples -/

/-- An item body used in concrete scenarios. -/
def exItem : Item := { name := "thing", description := none, price := 1, tax := none }

/-- A concrete value of str(uuid.uuid4()): 36 characters. -/
def exUuid : String := "c64b8a5e-4f0b-4c5d-9a3e-2f1d0b7a6c5d"

/-- The record stored under the key a in the concrete starting state for
the replace/patch comparison: optional fields set, plus an extra key
added by an earlier untyped PATCH. -/
def exRec3 : Record :=
  [("id", .vstr "a"), ("name", .vstr "widget"), ("description", .vstr "old"),
   ("price", .vnum 5), ("tax", .vnum 1), ("color", .vstr "red")]

/-- A one-item starting state for the replace/patch comparison. -/
def exDb3 : Db := [("a", exRec3)]

/-- A replace body that does not resupply description and tax. -/
def exItem3 : Item := { name := "widget2", description := none, price := 6, tax := none }

/-- A patch body with the same provided fields as exItem3. -/
def exBody3 : Record := [("name", .vstr "widget2"), ("price", .vnum 6)]

/-! ### Dictionary lemmas -/

theorem dictGet_dictSet_self {α : Type} (l : List (String × α)) (k : String) (v : α) :
    dictGet (dictSet l k v) k = some v := by
  induction l with
  | nil => simp [dictSet, dictGet]
  | cons p rest ih =>
      obtain ⟨k', v'⟩ := p
      by_cases h : k' = k
      · simp [dictSet, h, dictGet]
      · simp [dictSet, h, dictGet, ih]

theorem dictGet_dictSet_of_ne {α : Type} (l : List (String × α)) {k k2 : String}
    (v : α) (h : k2 ≠ k) : dictGet (dictSet l k v) k2 = dictGet l k2 := by
  have h' : k ≠ k2 := fun hh => h hh.symm
  induction l with
  | nil => simp [dictSet, dictGet, h']
  | cons p rest ih =>
      obtain ⟨k', v'⟩ := p
      by_cases hk : k' = k
      · subst hk
        simp [dictSet, dictGet, h']
      · by_cases hk2 : k' = k2
        · simp [dictSet, hk, dictGet, hk2, h]
        · simp [dictSet, hk, dictGet, hk2, ih]

theorem mem_dictSet {α : Type} {l : List (String × α)} {k : String} {v : α}
    {p : String × α} (h : p ∈ dictSet l k v) : p ∈ l ∨ p = (k, v) := by
  induction l with
  | nil => simp [dictSet] at h; simp [h]
  | cons q rest ih =>
      obtain ⟨k', v'⟩ := q
      by_cases hk : k' = k
      · subst hk
        simp [dictSet] at h
        rcases h with h | h
        · subst h; right; rfl
        · left; simp [h]
      · simp [dictSet, hk] at h
        rcases h with h | h
        · left; simp [h]
        · rcases ih h with h2 | h2
          · left; simp [h2]
          · right; exact h2

theorem mem_dictDel {α : Type} {l : List (String × α)} {k : String}
    {p : String × α} (h : p ∈ dictDel l k) : p ∈ l := by
  induction l with
  | nil => simp [dictDel] at h
  | cons q rest ih =>
      obtain ⟨k', v'⟩ := q
      by_cases hk : k' = k
      · simp [dictDel, hk] at h
        simp [h]
      · simp [dictDel, hk] at h
        rcases h with h | h
        · simp [h]
        · simp [ih h]

theorem dictGet_eq_some_mem {α : Type} {l : List (String × α)} {k : String}
    {v : α} (h : dictGet l k = some v) : (k, v) ∈ l := by
  induction l with
  | nil => simp [dictGet] at h
  | cons q rest ih =>
      obtain ⟨k', v'⟩ := q
      by_cases hk : k' = k
      · subst hk
        simp [dictGet] at h
        simp [h]
      · simp [dictGet, hk] at h
        simp [ih h]

theorem dictGet_eq_none_of_not_mem {α : Type} {l : List (String × α)} {k : String}
    (h : k ∉ l.map Prod.fst) : dictGet l k = none := by
  induction l with
  | nil => rfl
  | cons q rest ih =>
      obtain ⟨k', v'⟩ := q
      have h1 : k' ≠ k := by
        intro hh
        exact h (by simp [hh])
      have h2 : k ∉ rest.map Prod.fst := by
        intro hh
        exact h (by simp [hh])
      simp [dictGet, h1, ih h2]

theorem dictGet_dictDel_self {α : Type} {l : List (String × α)} {k : String}
    (h : KeysNodup l) : dictGet (dictDel l k) k = none := by
  induction l with
  | nil => rfl
  | cons q rest ih =>
      obtain ⟨k', v'⟩ := q
      have h0 : (k' :: rest.map Prod.fst).Nodup := h
      have h1 : k' ∉ rest.map Prod.fst := (List.nodup_cons.mp h0).1
      have h2 : KeysNodup rest := (List.nodup_cons.mp h0).2
      by_cases hk : k' = k
      · subst hk
        simpa [dictDel] using dictGet_eq_none_of_not_mem h1
      · simp [dictDel, hk, dictGet, ih h2]

theorem dictGet_dictDel_of_ne {α : Type} (l : List (String × α)) {k k2 : String}
    (h : k2 ≠ k) : dictGet (dictDel l k) k2 = dictGet l k2 := by
  have h' : k ≠ k2 := fun hh => h hh.symm
  induction l with
  | nil => rfl
  | cons q rest ih =>
      obtain ⟨k', v'⟩ := q
      by_cases hk : k' = k
      · subst hk
        simp [dictDel, dictGet, h']
      · simp [dictDel, hk, dictGet, ih]

theorem mergeInto_nil (r : Record) : mergeInto r [] = r := rfl

theorem mergeInto_cons (r : Record) (k : String) (v : Value) (body : Record) :
    mergeInto r ((k, v) :: body) = mergeInto (dictSet r k v) body := rfl

theorem dictGet_mergeInto_of_not_has {body : Record} {k : String}
    (h : hasKey body k = false) (r : Record) :
    dictGet (mergeInto r body) k = dictGet r k := by
  induction body generalizing r with
  | nil => rfl
  | cons q rest ih =>
      obtain ⟨k1, v1⟩ := q
      unfold hasKey at h
      by_cases hk : k1 = k
      · subst hk
        simp [dictGet] at h
      · have hk' : k ≠ k1 := fun hh => hk hh.symm
        simp [dictGet, hk] at h
        rw [mergeInto_cons, ih (by simpa [hasKey] using h),
            dictGet_dictSet_of_ne _ _ hk']

theorem dictGet_mergeInto_of_mem {body : Record} {k : String} {v : Value}
    (hnd : KeysNodup body) (h : (k, v) ∈ body) (r : Record) :
    dictGet (mergeInto r body) k = some v := by
  induction body generalizing r with
  | nil => simp at h
  | cons q rest ih =>
      obtain ⟨k1, v1⟩ := q
      have hnd0 : (k1 :: rest.map Prod.fst).Nodup := hnd
      have hnd1 : k1 ∉ rest.map Prod.fst := (List.nodup_cons.mp hnd0).1
      have hnd2 : KeysNodup rest := (List.nodup_cons.mp hnd0).2
      rcases List.mem_cons.mp h with h1 | h1
      · have hk : k1 = k := (congrArg Prod.fst h1).symm
        have hv : v1 = v := (congrArg Prod.snd h1).symm
        subst hk
        subst hv
        rw [mergeInto_cons]
        have hnone : dictGet rest k1 = none := dictGet_eq_none_of_not_mem hnd1
        rw [dictGet_mergeInto_of_not_has (by simp [hasKey, hnone]) _,
            dictGet_dictSet_self]
      · rw [mergeInto_cons]
        exact ih hnd2 h1 _

/-! ### String and split lemmas -/

theorem pyLast_cons_cons {α : Type} (d x y : α) (xs : List α) :
    pyLast d (x :: y :: xs) = pyLast d (y :: xs) := rfl

theorem pyLast_map {α β : Type} (f : α → β) (d : α) (x : α) (xs : List α) :
    pyLast (f d) ((x :: xs).map f) = f (pyLast d (x :: xs)) := by
  induction xs generalizing x with
  | nil => rfl
  | cons y ys ih =>
      have h1 : List.map f (x :: y :: ys) = f x :: List.map f (y :: ys) := rfl
      have h2 : List.map f (y :: ys) = f y :: List.map f ys := rfl
      rw [h1, h2, pyLast_cons_cons, ← h2, ih, pyLast_cons_cons]

theorem splitChars_ne_nil (sep : Char) (l : List Char) : splitChars sep l ≠ [] := by
  cases l with
  | nil => simp [splitChars]
  | cons c cs =>
      by_cases h : c = sep
      · simp [splitChars, h]
      · cases hs : splitChars sep cs with
        | nil => simp [splitChars, h, hs]
        | cons g gs => simp [splitChars, h, hs]

theorem splitChars_of_not_mem {sep : Char} {l : List Char} (h : sep ∉ l) :
    splitChars sep l = [l] := by
  induction l with
  | nil => rfl
  | cons c cs ih =>
      have h1 : ¬ c = sep := by
        intro hh
        exact h (by simp [hh])
      have h2 : sep ∉ cs := by
        intro hh
        exact h (by simp [hh])
      simp [splitChars, h1, ih h2]

theorem not_mem_of_splitChars_singleton {sep : Char} {l g : List Char}
    (h : splitChars sep l = [g]) : sep ∉ l := by
  induction l generalizing g with
  | nil => simp
  | cons c cs ih =>
      by_cases hc : c = sep
      · subst hc
        simp [splitChars] at h
        exact absurd h.2 (splitChars_ne_nil _ _)
      · cases hs : splitChars sep cs with
        | nil => exact absurd hs (splitChars_ne_nil _ _)
        | cons g1 gs1 =>
            simp [splitChars, hc, hs] at h
            intro hmem
            rcases List.mem_cons.mp hmem with he | he
            · exact hc he.symm
            · exact ih (g := g1) (by rw [hs, h.2]) he

theorem splitChars_last_spec {sep : Char} {l : List Char} (h : sep ∈ l) :
    ∃ pre, l = pre ++ sep :: pyLast [] (splitChars sep l)
      ∧ sep ∉ pyLast [] (splitChars sep l) := by
  induction l with
  | nil => simp at h
  | cons c cs ih =>
      by_cases hc : c = sep
      · subst hc
        by_cases hm : c ∈ cs
        · obtain ⟨pre, hpre, hnot⟩ := ih hm
          have hsplit : splitChars c (c :: cs) = [] :: splitChars c cs := by
            simp [splitChars]
          have hshift : pyLast [] (splitChars c (c :: cs))
              = pyLast [] (splitChars c cs) := by
            rw [hsplit]
            cases hs : splitChars c cs with
            | nil => exact absurd hs (splitChars_ne_nil _ _)
            | cons g gs => rw [pyLast_cons_cons]
          rw [hshift]
          exact ⟨c :: pre, by rw [List.cons_append, ← hpre], hnot⟩
        · have hone : splitChars c cs = [cs] := splitChars_of_not_mem hm
          have hsplit : splitChars c (c :: cs) = [[], cs] := by
            simp [splitChars, hone]
          rw [hsplit]
          exact ⟨[], rfl, hm⟩
      · have hm : sep ∈ cs := by
          rcases List.mem_cons.mp h with he | he
          · exact absurd he.symm hc
          · exact he
        obtain ⟨pre, hpre, hnot⟩ := ih hm
        cases hs : splitChars sep cs with
        | nil => exact absurd hs (splitChars_ne_nil _ _)
        | cons g gs =>
            cases gs with
            | nil => exact absurd hm (not_mem_of_splitChars_singleton hs)
            | cons g2 gs2 =>
                have hsplit : splitChars sep (c :: cs) = (c :: g) :: g2 :: gs2 := by
                  simp [splitChars, hc, hs]
                have hshift : pyLast [] (splitChars sep (c :: cs))
                    = pyLast [] (splitChars sep cs) := by
                  rw [hsplit, hs, pyLast_cons_cons, pyLast_cons_cons]
                rw [hshift]
                exact ⟨c :: pre, by rw [List.cons_append, ← hpre], hnot⟩

theorem file_ext_of_not_mem {fn : String} (h : '.' ∉ fn.data) : file_ext fn = "" := by
  simp [file_ext, h]

theorem file_ext_spec_of_mem {fn : String} (h : '.' ∈ fn.data) :
    ∃ pre, fn.data = pre ++ '.' :: (file_ext fn).data
      ∧ '.' ∉ (file_ext fn).data := by
  have hfe : file_ext fn = String.mk (pyLast [] (splitChars '.' fn.data)) := by
    rw [file_ext, if_pos h]
    unfold pySplit
    cases hs : splitChars '.' fn.data with
    | nil => exact absurd hs (splitChars_ne_nil _ _)
    | cons g gs =>
        rw [List.map_cons]
        have hmk : (String.mk [] : String) = "" := rfl
        rw [← hmk, ← List.map_cons, pyLast_map]
  obtain ⟨pre, hp, hn⟩ := splitChars_last_spec h
  rw [hfe]
  exact ⟨pre, hp, hn⟩

theorem beforeLast_of_not_mem {sep : Char} {l : List Char} (h : sep ∉ l) :
    beforeLast sep l = none := by
  induction l with
  | nil => rfl
  | cons c cs ih =>
      have h1 : ¬ c = sep := by
        intro hh
        exact h (by simp [hh])
      have h2 : sep ∉ cs := by
        intro hh
        exact h (by simp [hh])
      simp [beforeLast, ih h2, h1]

theorem beforeLast_append {sep : Char} {suf : List Char} (h : sep ∉ suf) :
    ∀ l : List Char, beforeLast sep (l ++ sep :: suf) = some l := by
  intro l
  induction l with
  | nil => simp [beforeLast, beforeLast_of_not_mem h]
  | cons c cs ih => simp [beforeLast, ih]

theorem strData_append (s t : String) : (s ++ t).data = s.data ++ t.data := by
  obtain ⟨d1⟩ := s
  obtain ⟨d2⟩ := t
  rfl

theorem str_ext {s t : String} (h : s.data = t.data) : s = t := by
  obtain ⟨d1⟩ := s
  obtain ⟨d2⟩ := t
  exact congrArg String.mk h

theorem token_dot_pdf_data (token : String) :
    (token ++ "." ++ "pdf").data = token.data ++ '.' :: ['p', 'd', 'f'] := by
  rw [strData_append, strData_append, List.append_assoc]
  rfl

theorem append_dot_pdf (token : String) : token ++ "." ++ "pdf" = token ++ ".pdf" :=
  str_ext (by rw [token_dot_pdf_data, strData_append])

theorem baseNameOf_token_pdf (token : String) :
    baseNameOf (token ++ "." ++ "pdf") = token := by
  unfold baseNameOf
  rw [token_dot_pdf_data, beforeLast_append (by decide)]

/-! ### Invariant preservation -/

theorem dbInv_nil : DbInv [] := by
  intro p hp
  simp at hp

theorem ne_empty_of_length_eq_36 {s : String} (h : s.length = 36) : s ≠ "" := by
  intro he
  subst he
  exact absurd h (by decide)

theorem dbInv_create {db : Db} (h : DbInv db) {item_id : String}
    (hid : item_id ≠ "") (item : Item) : DbInv (create_item db item_id item).2 := by
  intro p hp
  rcases mem_dictSet hp with hmem | heq
  · exact h p hmem
  · subst heq
    exact ⟨by simp [dictGet], hid⟩

theorem dbInv_update {db : Db} (h : DbInv db) (item_id : String) (item : Item) :
    DbInv (update_item db item_id item).2 := by
  intro p hp
  cases hgd : dictGet db item_id with
  | none =>
      simp [update_item, hgd] at hp
      exact h p hp
  | some r0 =>
      simp [update_item, hgd] at hp
      rcases mem_dictSet hp with hmem | heq
      · exact h p hmem
      · subst heq
        exact ⟨by simp [dictGet], (h _ (dictGet_eq_some_mem hgd)).2⟩

theorem dbInv_patch {db : Db} (h : DbInv db) (item_id : String) {body : Record}
    (hb : hasKey body "id" = false) : DbInv (patch_item db item_id body).2 := by
  intro p hp
  cases hgd : dictGet db item_id with
  | none =>
      simp [patch_item, hgd] at hp
      exact h p hp
  | some existing =>
      simp [patch_item, hgd] at hp
      rcases mem_dictSet hp with hmem | heq
      · exact h p hmem
      · subst heq
        have hx := h _ (dictGet_eq_some_mem hgd)
        exact ⟨by rw [dictGet_mergeInto_of_not_has hb]; exact hx.1, hx.2⟩

theorem dbInv_delete {db : Db} (h : DbInv db) (item_id : String) :
    DbInv (delete_item db item_id).2 := by
  intro p hp
  cases hgd : dictGet db item_id with
  | none =>
      simp [delete_item, hgd] at hp
      exact h p hp
  | some r0 =>
      simp [delete_item, hgd] at hp
      exact h p (mem_dictDel hp)

/-- Claim C2 counterexample: the invariant does not hold on every
reachable state, because PATCH merges arbitrary keys: patching the item
stored under exUuid with the body containing the single pair id mapped
to the string hijacked leaves a stored record whose id field no longer
equals its mapping key. -/
theorem c2_invariant_counterexample :
    ¬ (∀ db : Db, Reach db → DbInv db) := by
  intro hall
  have hreach :
      Reach (patch_item (create_item [] exUuid exItem).2 exUuid
        [("id", .vstr "hijacked")]).2 :=
    Reach.patch exUuid [("id", .vstr "hijacked")]
      (Reach.create exUuid exItem (by decide) Reach.init)
  exact absurd (hall _ hreach) (by decide)

/-- Claim C2 (amended): for every reachable registry state in which
every PartialUpdate along the way used a body without an id key, each
item in the store has a non-empty id field equal to the key under which
it is stored; List, Get, Search, Create, Replace and Delete preserve
the invariant unconditionally, while a PartialUpdate body containing an
id key can break it. -/
theorem c2_invariant_reachable (db : Db) (h : ReachSafe db) : DbInv db := by
  induction h with
  | init => exact dbInv_nil
  | create item_id item hlen hdb ih =>
      exact dbInv_create ih (ne_empty_of_length_eq_36 hlen) item
  | replace item_id item hdb ih => exact dbInv_update ih item_id item
  | patch item_id body hb hdb ih => exact dbInv_patch ih item_id hb
  | del item_id hdb ih => exact dbInv_delete ih item_id

/-- Witness for C2 (amended): a concrete reachable state, created by one
Create call, satisfies the invariant. -/
theorem c2_invariant_reachable_witness : DbInv (create_item [] exUuid exItem).2 :=
  c2_invariant_reachable _ (ReachSafe.create exUuid exItem (by decide) ReachSafe.init)

/-! ### Claims about the item registry -/

/-- Claim C4: for every registry state and item body, Create returns the
stored record, namely the input fields in model order prefixed by the
generated id, it always succeeds, and a subsequent Get on the returned
id succeeds with exactly that record. -/
theorem c4_create_then_get (db : Db) (item_id : String) (item : Item) :
    (create_item db item_id item).1 = ("id", .vstr item_id) :: model_dump item
    ∧ read_item (create_item db item_id item).2 item_id
        = .ok ((create_item db item_id item).1) := by
  refine ⟨rfl, ?_⟩
  show read_item (dictSet db item_id (("id", .vstr item_id) :: model_dump item))
      item_id = _
  rw [read_item, dictGet_dictSet_self]
  rfl

/-- Claim C5: Delete fails with NotFound exactly when the id is absent;
when the id is present it removes that record, leaves every other key
untouched and returns the acknowledgment message rather than the
deleted item, so Delete then Get yields NotFound and a second Delete of
the same id yields NotFound. -/
theorem c5_delete_semantics (db : Db) (item_id : String) (hnd : KeysNodup db) :
    ((delete_item db item_id).1 = .error (.httpException 404 "Item not found")
        ↔ dictGet db item_id = none)
    ∧ ((dictGet db item_id).isSome = true →
        (delete_item db item_id).1
            = .ok [("message", .vstr "Item deleted successfully")]
        ∧ dictGet (delete_item db item_id).2 item_id = none
        ∧ (∀ k, k ≠ item_id → dictGet (delete_item db item_id).2 k = dictGet db k)
        ∧ read_item (delete_item db item_id).2 item_id
            = .error (.httpException 404 "Item not found")
        ∧ (delete_item (delete_item db item_id).2 item_id).1
            = .error (.httpException 404 "Item not found")) := by
  constructor
  · cases hgd : dictGet db item_id with
    | none => simp [delete_item, hgd]
    | some r0 => simp [delete_item, hgd]
  · intro hs
    cases hgd : dictGet db item_id with
    | none => rw [hgd] at hs; simp at hs
    | some r0 =>
        have hdel : (delete_item db item_id).2 = dictDel db item_id := by
          simp [delete_item, hgd]
        have hnone : dictGet (dictDel db item_id) item_id = none :=
          dictGet_dictDel_self hnd
        refine ⟨by simp [delete_item, hgd], ?_, ?_, ?_, ?_⟩
        · rw [hdel]
          exact hnone
        · intro k hk
          rw [hdel]
          exact dictGet_dictDel_of_ne _ hk
        · rw [hdel, read_item, hnone]
        · rw [hdel]
          simp [delete_item, hnone]

/-- Witness for C5 at a concrete one-item registry. -/
theorem c5_delete_semantics_witness :
    (delete_item (create_item [] exUuid exItem).2 exUuid).1
        = .ok [("message", .vstr "Item deleted successfully")]
    ∧ read_item (delete_item (create_item [] exUuid exItem).2 exUuid).2 exUuid
        = .error (.httpException 404 "Item not found") :=
  ⟨((c5_delete_semantics _ exUuid (by decide)).2 (by decide)).1,
   ((c5_delete_semantics _ exUuid (by decide)).2 (by decide)).2.2.2.1⟩

/-- Claim C10: whenever Get, Replace, PartialUpdate or Delete fails with
NotFound the registry is left unchanged; Get fails with NotFound exactly
when the id is absent and its handler performs no writes at all. -/
theorem c10_notfound_leaves_db (db : Db) (item_id : String) (item : Item)
    (body : Record) :
    (read_item db item_id = .error (.httpException 404 "Item not found")
        ↔ dictGet db item_id = none)
    ∧ (∀ e, (update_item db item_id item).1 = .error e
        → (update_item db item_id item).2 = db)
    ∧ (∀ e, (patch_item db item_id body).1 = .error e
        → (patch_item db item_id body).2 = db)
    ∧ (∀ e, (delete_item db item_id).1 = .error e
        → (delete_item db item_id).2 = db) := by
  refine ⟨?_, ?_, ?_, ?_⟩ <;> cases hgd : dictGet db item_id <;>
    simp [read_item, update_item, patch_item, delete_item, hgd]

/-- Witness for C10 at the empty registry, where every lookup fails. -/
theorem c10_notfound_leaves_db_witness :
    (update_item [] "missing" exItem).2 = ([] : Db)
    ∧ (patch_item [] "missing" []).2 = ([] : Db)
    ∧ (delete_item [] "missing").2 = ([] : Db) :=
  ⟨(c10_notfound_leaves_db [] "missing" exItem []).2.1
      (.httpException 404 "Item not found") rfl,
   (c10_notfound_leaves_db [] "missing" exItem []).2.2.1
      (.httpException 404 "Item not found") rfl,
   (c10_notfound_leaves_db [] "missing" exItem []).2.2.2
      (.httpException 404 "Item not found") rfl⟩

/-- Claim C3: Replace stores exactly the id plus the new model fields,
discarding every prior value including extra keys, while PartialUpdate
overwrites only the provided keys and leaves all other keys of the
record untouched; on the identical starting state exDb3 with comparable
bodies the two stored results differ. -/
theorem c3_replace_vs_patch :
    (∀ (db : Db) (item_id : String) (item : Item) (r0 : Record),
        dictGet db item_id = some r0 →
        (update_item db item_id item).1
            = .ok (("id", .vstr item_id) :: model_dump item)
        ∧ dictGet (update_item db item_id item).2 item_id
            = some (("id", .vstr item_id) :: model_dump item))
    ∧ (∀ (db : Db) (item_id : String) (body : Record) (r0 : Record),
        dictGet db item_id = some r0 →
        (patch_item db item_id body).1 = .ok (mergeInto r0 body)
        ∧ dictGet (patch_item db item_id body).2 item_id = some (mergeInto r0 body)
        ∧ (∀ k, hasKey body k = false → dictGet (mergeInto r0 body) k = dictGet r0 k)
        ∧ (KeysNodup body → ∀ k v, (k, v) ∈ body
            → dictGet (mergeInto r0 body) k = some v))
    ∧ dictGet (update_item exDb3 "a" exItem3).2 "a"
        ≠ dictGet (patch_item exDb3 "a" exBody3).2 "a" := by
  refine ⟨?_, ?_, by decide⟩
  · intro db item_id item r0 hgd
    have hs : (dictGet db item_id).isSome = true := by rw [hgd]; rfl
    constructor
    · simp [update_item, hs]
    · simp [update_item, hs, dictGet_dictSet_self]
  · intro db item_id body r0 hgd
    refine ⟨by simp [patch_item, hgd], by simp [patch_item, hgd, dictGet_dictSet_self],
      fun k hk => dictGet_mergeInto_of_not_has hk r0,
      fun hnd k v hm => dictGet_mergeInto_of_mem hnd hm r0⟩

/-- Witness for C3 at the concrete starting state. -/
theorem c3_replace_vs_patch_witness :
    (update_item exDb3 "a" exItem3).1 = .ok (("id", .vstr "a") :: model_dump exItem3)
    ∧ (patch_item exDb3 "a" exBody3).1 = .ok (mergeInto exRec3 exBody3) :=
  ⟨(c3_replace_vs_patch.1 exDb3 "a" exItem3 exRec3 (by decide)).1,
   (c3_replace_vs_patch.2.1 exDb3 "a" exBody3 exRec3 (by decide)).1⟩

/-! ### Claims about the file store -/

/-- Claim C6: for every uploaded file the stored name is the random
token followed by a dot and the derived extension, where the extension
is the substring after the last dot of the original name, with no
further dot in it, or the empty string when the name has no dot;
uploading report.pdf yields a stored name ending in .pdf whose base
name is the token and hence differs from report, and the response
carries the stored name, the original name and a success message. -/
theorem c6_upload_stored_name (fs : Fs) (token fn : String) (content : List Nat)
    (hlen : token.length = 36) :
    (upload_file fs token fn content).1.filename = token ++ "." ++ file_ext fn
    ∧ ('.' ∉ fn.data → file_ext fn = "")
    ∧ ('.' ∈ fn.data →
        ∃ pre, fn.data = pre ++ '.' :: (file_ext fn).data ∧ '.' ∉ (file_ext fn).data)
    ∧ (upload_file fs token "report.pdf" content).1
        = { filename := token ++ ".pdf", original_filename := "report.pdf",
            message := "File uploaded successfully" }
    ∧ (∃ base, (upload_file fs token "report.pdf" content).1.filename = base ++ ".pdf")
    ∧ baseNameOf ((upload_file fs token "report.pdf" content).1.filename) = token
    ∧ baseNameOf ((upload_file fs token "report.pdf" content).1.filename) ≠ "report" := by
  have hre : file_ext "report.pdf" = "pdf" := by decide
  have hname : (upload_file fs token "report.pdf" content).1.filename
      = token ++ "." ++ "pdf" := by
    simp [upload_file, hre]
  have htok : token ≠ "report" := by
    intro he
    rw [he] at hlen
    exact absurd hlen (by decide)
  refine ⟨rfl, file_ext_of_not_mem, file_ext_spec_of_mem, ?_, ?_, ?_, ?_⟩
  · simp [upload_file, hre, append_dot_pdf]
  · exact ⟨token, by rw [hname, append_dot_pdf]⟩
  · rw [hname, baseNameOf_token_pdf]
  · rw [hname, baseNameOf_token_pdf]
    exact htok

/-- Witness for C6 with a concrete uuid token. -/
theorem c6_upload_stored_name_witness :
    (upload_file fsInit exUuid "report.pdf" []).1
        = { filename := exUuid ++ ".pdf", original_filename := "report.pdf",
            message := "File uploaded successfully" }
    ∧ baseNameOf ((upload_file fsInit exUuid "report.pdf" []).1.filename) ≠ "report" :=
  ⟨(c6_upload_stored_name fsInit exUuid "report.pdf" [] (by decide)).2.2.2.1,
   (c6_upload_stored_name fsInit exUuid "report.pdf" [] (by decide)).2.2.2.2.2.2⟩

/-- Claim C7: Retrieve fails with NotFound exactly when no file is
stored under the requested name in the uploads directory; otherwise it
returns the raw bytes with media type application/octet-stream and
suggests the stored name; downloading a stored name right after
uploading it returns bytes identical to what was uploaded. -/
theorem c7_download_semantics (fs : Fs) (filename : String) :
    (download_file fs filename = .error (.httpException 404 "File not found")
        ↔ dictGet fs.uploadsFiles filename = none)
    ∧ (∀ content, dictGet fs.uploadsFiles filename = some content →
        download_file fs filename
          = .ok { content := content, media_type := "application/octet-stream",
                  filename := filename })
    ∧ (∀ token origName content,
        download_file (upload_file fs token origName content).2
            ((upload_file fs token origName content).1.filename)
          = .ok { content := content,
                  media_type := "application/octet-stream",
                  filename := (upload_file fs token origName content).1.filename }) := by
  refine ⟨?_, ?_, ?_⟩
  · cases hgd : dictGet fs.uploadsFiles filename with
    | none => simp [download_file, hgd]
    | some c => simp [download_file, hgd]
  · intro content hgd
    simp [download_file, hgd]
  · intro token origName content
    simp [download_file, upload_file, dictGet_dictSet_self]

/-- Witness for C7: a concrete upload-then-download roundtrip. -/
theorem c7_download_semantics_witness :
    download_file (upload_file fsInit exUuid "report.pdf" [1, 2, 3]).2
        ((upload_file fsInit exUuid "report.pdf" [1, 2, 3]).1.filename)
      = .ok { content := [1, 2, 3], media_type := "application/octet-stream",
              filename := (upload_file fsInit exUuid "report.pdf" [1, 2, 3]).1.filename } :=
  (c7_download_semantics fsInit "report.pdf").2.2 exUuid "report.pdf" [1, 2, 3]

/-- Claim C8: listing files returns the names currently in the uploads
directory, and when the directory does not exist the handler succeeds
with an empty list; it never returns an error. -/
theorem c8_list_files_total (fs : Fs) :
    list_files fs
      = .ok { files := if fs.uploadsDirExists then fs.uploadsFiles.map Prod.fst
              else [] } := by
  cases h : fs.uploadsDirExists with
  | false => simp [list_files, os_listdir, h]
  | true => simp [list_files, os_listdir, h]

theorem uploadLoop_spec (ufs : List UFile) :
    ∀ (fs : Fs) (acc : List UploadEntry), fs.uploadsDirExists = true →
      uploadLoop fs acc ufs
        = (acc ++ ufs.map (fun u =>
              { filename := u.token ++ "." ++ file_ext u.origName,
                original_filename := u.origName }),
           ufs.foldl (fun a u => (upload_file a u.token u.origName u.content).2) fs) := by
  induction ufs with
  | nil =>
      intro fs acc hd
      simp [uploadLoop]
  | cons u rest ih =>
      intro fs acc hd
      have hstep : ({ fs with
            uploadsFiles := dictSet fs.uploadsFiles
              (u.token ++ "." ++ file_ext u.origName) u.content } : Fs)
          = (upload_file fs u.token u.origName u.content).2 := by
        obtain ⟨d, files⟩ := fs
        cases hd
        rfl
      show uploadLoop
          { fs with
            uploadsFiles := dictSet fs.uploadsFiles
              (u.token ++ "." ++ file_ext u.origName) u.content }
          (acc ++ [{ filename := u.token ++ "." ++ file_ext u.origName,
                     original_filename := u.origName }]) rest = _
      rw [hstep, ih _ _ rfl]
      simp

/-- Claim C9: SaveMultiple applies Save to each input file in input
order, producing exactly one filename/original_filename entry per input
file, in the same order, under the uploaded_files key of the response;
the final filesystem is the sequential composition of the single-file
saves. -/
theorem c9_upload_multiple (fs : Fs) (ufs : List UFile) :
    (upload_multiple_files fs ufs).1.uploaded_files
      = ufs.map (fun u =>
          { filename := (upload_file fs u.token u.origName u.content).1.filename,
            original_filename :=
              (upload_file fs u.token u.origName u.content).1.original_filename })
    ∧ (upload_multiple_files fs ufs).1.uploaded_files.length = ufs.length
    ∧ (upload_multiple_files fs ufs).2
      = ufs.foldl (fun a u => (upload_file a u.token u.origName u.content).2)
          { fs with uploadsDirExists := true } := by
  have h := uploadLoop_spec ufs { fs with uploadsDirExists := true } [] rfl
  refine ⟨?_, ?_, ?_⟩
  · show (uploadLoop { fs with uploadsDirExists := true } [] ufs).1 = _
    rw [h]
    simp only [List.nil_append]
    rfl
  · show (uploadLoop { fs with uploadsDirExists := true } [] ufs).1.length = _
    rw [h]
    simp
  · show (uploadLoop { fs with uploadsDirExists := true } [] ufs).2 = _
    rw [h]

/-! ### Claim about the search route -/

/-- Claim C1 evaluated at a failing input: the GET routes are matched in
declaration order, so the path items/search is captured by the
read_item route (declared at line 36, before the search route at line
44) with the path parameter item_id bound to the literal search, and
the request yields 404 Item not found on an empty registry, even though
the search handler itself on the same registry with a valid name
parameter would return an empty success result. -/
theorem c1_search_route_shadowed :
    routeGet ["items", "search"] = some (.hReadItem, ["search"])
    ∧ handle_get [] fsInit ["items", "search"] (some "widget") none
        = .errResp 404 "Item not found"
    ∧ search_items [] (some "widget") none = .ok [] := by
  refine ⟨rfl, rfl, rfl⟩

end FastApiDemo
